import Mathlib

set_option maxRecDepth 8000

/-!
Shallow embedding of the li0ard/gost3413 TypeScript library (GOST R 34.13-2015
cipher modes, padding procedures, ACPKM re-keying and the MGM AEAD).

Modelling conventions:
* A `Uint8Array` is a `List ℕ` whose entries are < 256 (every reachable value
  is a byte; where a JavaScript typed-array store truncates, the model applies
  `% 256` explicitly).
* A thrown JavaScript `Error` is `Except.error` carrying the message string.
* While-loops that shrink their input are written with an explicit fuel that
  is an upper bound on the iteration count at every reachable call site.
-/

/-- Byte-wise XOR of the common prefix (src/utils.ts `xor`): the result has the
minimum of the two lengths and each byte is stored into a `Uint8Array`. -/
def xor (a b : List ℕ) : List ℕ := List.zipWith (fun x y => (x ^^^ y) % 256) a b

/-- Concatenation of byte buffers (src/utils.ts `concatBytes`). -/
def concatBytes (l : List (List ℕ)) : List ℕ := l.flatten

/-- Digit count of the JavaScript hex string `n.toString(16)`; fuel-based
recursion, `n` itself bounds the number of divisions by 16. -/
def hexLenAux : ℕ → ℕ → ℕ
  | 0, _ => 1
  | f+1, n => if n < 16 then 1 else hexLenAux f (n / 16) + 1

/-- Number of hex digits of `n` (length of `n.toString(16)`). -/
def hexLen (n : ℕ) : ℕ := hexLenAux n n

/-- Big-endian byte expansion of `n` over `L` bytes: the value `hexToBytes`
(src/utils.ts) returns when given the zero-padded hex string of `n` with
`2*L` digits. -/
def beBytes (n L : ℕ) : List ℕ := (List.range L).map (fun i => n / 256 ^ (L - 1 - i) % 256)

/-- src/utils.ts `numberToBytesBE`: `hexToBytes(n.toString(16).padStart(len*2, '0'))`.
`padStart` never shortens, so the hex string has `max (hexLen n) (2*len)`
digits, and `hexToBytes` throws when that count is odd (the source error
message also interpolates the offending length). -/
def numberToBytesBE (n len : ℕ) : Except String (List ℕ) :=
  let hl := max (hexLen n) (2 * len)
  if hl % 2 = 1 then Except.error "hex string expected, got unpadded hex"
  else Except.ok (beBytes n (hl / 2))

/-- src/utils.ts `bytesToNumberBE` (via `bytesToHex` and `hexToNumber`):
big-endian interpretation of a byte buffer. -/
def bytesToNumberBE (b : List ℕ) : ℕ := b.foldl (fun acc x => acc * 256 + x) 0

/-- src/utils.ts `KEYSIZE`. -/
def KEYSIZE : ℕ := 32

/-- src/index.ts `getPadLength`. -/
def getPadLength (dataLength blockSize : ℕ) : ℕ :=
  if dataLength < blockSize then blockSize - dataLength
  else if dataLength % blockSize = 0 then 0
  else blockSize - dataLength % blockSize

/-- src/index.ts `pad1` (Procedure 1): allocate `len + getPadLength len bs`
zero bytes and copy `data` over the front. -/
def pad1 (data : List ℕ) (blockSize : ℕ) : List ℕ :=
  data ++ List.replicate (getPadLength data.length blockSize) 0

/-- src/index.ts `pad2` (Procedure 2, ISO/IEC 7816-4): `data`, one `0x80`
marker, then zeros up to the next block boundary. -/
def pad2 (data : List ℕ) (blockSize : ℕ) : List ℕ :=
  data ++ 128 :: List.replicate (getPadLength (data.length + 1) blockSize) 0

/-- src/index.ts `pad3` (Procedure 3): identity on aligned input, `pad2`
otherwise. -/
def pad3 (data : List ℕ) (blockSize : ℕ) : List ℕ :=
  if getPadLength data.length blockSize = 0 then data else pad2 data blockSize

/-- Index of the last occurrence of the `0x80` marker (src/index.ts `unpad2`
scans the last block from its end and stops at the first `0x80` found). -/
def lastIdx80 : List ℕ → Option ℕ
  | [] => none
  | b :: rest =>
    match lastIdx80 rest with
    | some j => some (j + 1)
    | none => if b = 128 then some 0 else none

/-- src/index.ts `unpad2`. `data.subarray(data.length - blockSize)` clamps a
negative start to `max (2*len - bs) 0` (JavaScript negative-index semantics),
and likewise for the final `subarray(0, data.length - (blockSize - padIndex))`;
both clamps are expressed with truncated ℕ subtraction. -/
def unpad2 (data : List ℕ) (blockSize : ℕ) : Except String (List ℕ) :=
  let len := data.length
  let lastBlock := data.drop (if blockSize ≤ len then len - blockSize else 2 * len - blockSize)
  match lastIdx80 lastBlock with
  | none => Except.error "Padding marker (0x80) not found"
  | some padIndex =>
    if (lastBlock.drop (padIndex + 1)).all (fun x => x == 0) then
      Except.ok (data.take (if blockSize - padIndex ≤ len then len - (blockSize - padIndex)
                            else 2 * len - (blockSize - padIndex)))
    else Except.error "Invalid padding: non-zero bytes after 0x80"

/-- src/index.ts `Rb64` (`0b11011`). -/
def Rb64 : ℕ := 27

/-- src/index.ts `Rb128` (`0b10000111`). -/
def Rb128 : ℕ := 135

/-- src/index.ts `macShift`: `numberToBytesBE((from_be(data) * 2) ^ xorLsb,
blockSize).slice(-blockSize)`; `slice(-bs)` keeps the last `bs` bytes. -/
def macShift (blockSize : ℕ) (data : List ℕ) (xorLsb : ℕ) : Except String (List ℕ) :=
  (numberToBytesBE ((bytesToNumberBE data * 2) ^^^ xorLsb) blockSize).map
    (fun l => l.drop (l.length - blockSize))

/-- src/index.ts `omac_acpkm_master` lines 418-421: `sections = data.length`,
plus one when the length is not a multiple of the section size. -/
def omacSections (dataLen sectionSize : ℕ) : ℕ :=
  if dataLen % sectionSize = 0 then dataLen else dataLen + 1

/-- Length of pre-derived key material `omac_acpkm_master` requests from
`acpkmDerivationMaster` (src/index.ts line 422): `(KEYSIZE + blockSize) * sections`. -/
def omacKeymatLen (dataLen sectionSize blockSize : ℕ) : ℕ :=
  (KEYSIZE + blockSize) * omacSections dataLen sectionSize

/-- src/index.ts `omac_acpkm_master` lines 443-446: the derivation of K₂ from
the current K₁: `k2 = numberToBytesBE(from_be(k1) << 1n, blockSize)`, then
when the first byte of `k1` has its high bit set, `k2 = xor(k2,
numberToBytesBE(Rb, blockSize))`. An absent first byte reads as 0. -/
def omacAcpkmK2 (blockSize : ℕ) (k1 : List ℕ) : Except String (List ℕ) := do
  let k2 ← numberToBytesBE (bytesToNumberBE k1 * 2) blockSize
  if k1.headD 0 &&& 128 ≠ 0 then
    let rb ← numberToBytesBE (if blockSize = 16 then Rb128 else Rb64) blockSize
    pure (xor k2 rb)
  else
    pure k2

/-- src/mgm.ts `_incr`: increment a half-block as a big-endian integer;
`numberToBytesBE` is asked for `blockSize/2` bytes. -/
def _incr (data : List ℕ) (blockSize : ℕ) : Except String (List ℕ) :=
  numberToBytesBE (bytesToNumberBE data + 1) (blockSize / 2)

/-- src/mgm.ts `incr_r`: left half unchanged, right half incremented. -/
def incr_r (data : List ℕ) (blockSize : ℕ) : Except String (List ℕ) :=
  (_incr (data.drop (blockSize / 2)) blockSize).map
    (fun t => data.take (blockSize / 2) ++ t)

/-- src/mgm.ts `incr_l`: left half incremented, right half unchanged. -/
def incr_l (data : List ℕ) (blockSize : ℕ) : Except String (List ℕ) :=
  (_incr (data.take (blockSize / 2)) blockSize).map
    (fun t => t ++ data.drop (blockSize / 2))

/-- Auxiliary arithmetic fact: padding always completes to a block boundary. -/
theorem getPadLength_mod (n bs : ℕ) (h : 0 < bs) : (n + getPadLength n bs) % bs = 0 := by
  unfold getPadLength
  split_ifs with h1 h2
  · have he : n + (bs - n) = bs := by omega
    rw [he, Nat.mod_self]
  · simpa using h2
  · have h3 : n % bs < bs := Nat.mod_lt _ h
    have h4 := Nat.div_add_mod n bs
    have he : n + (bs - n % bs) = bs * (n / bs) + bs := by omega
    rw [he, Nat.mul_add_mod, Nat.mod_self]

/-- Auxiliary arithmetic fact: the padding added is shorter than a block when
the input is non-empty. -/
theorem getPadLength_lt (n bs : ℕ) (hn : 0 < n) (h : 0 < bs) : getPadLength n bs < bs := by
  unfold getPadLength
  split_ifs with h1 h2
  · omega
  · omega
  · have h3 : n % bs < bs := Nat.mod_lt _ h
    have h4 : n % bs ≠ 0 := h2
    omega

/-- Claim C3 (code evaluated at the failing input): on a counter whose right
half is all `0xFF` bytes, `incr_r` does not wrap modulo `2^(blockSize*4)` —
the incremented value `2^32` renders as a 9-digit hex string, so
`numberToBytesBE` throws inside `hexToBytes` instead of returning the wrapped
counter `[0,0,0,0,0,0,0,0]`. -/
theorem incr_r_wraparound_throws :
    incr_r [0, 0, 0, 0, 255, 255, 255, 255] 8 =
      Except.error "hex string expected, got unpadded hex" := rfl

/-- Claim C5 (code evaluated at the failing input): for a K₁ with its high bit
set, `omac_acpkm_master` cannot produce K₂ = (K₁ ≪ 1) ⊕ Rb — `K₁ ≪ 1` has 33
hex digits, so `numberToBytesBE` throws before any truncation or Rb XOR; the
`macShift`-based subkey derivation used by `mac` throws on the same input for
the same reason (its `.slice(-blockSize)` truncation is never reached). -/
theorem omac_acpkm_k2_high_bit_throws :
    omacAcpkmK2 16 (128 :: List.replicate 15 0) =
      Except.error "hex string expected, got unpadded hex" ∧
    macShift 16 (128 :: List.replicate 15 0) 135 =
      Except.error "hex string expected, got unpadded hex" := ⟨rfl, rfl⟩

/-- Claim C6 (code evaluated at the failing input): for 32 bytes of data with
section size 16 and block size 8, `omac_acpkm_master` pre-derives
`(KEYSIZE + 8) * 32 = 1280` bytes of key material — `sections` is set to
`data.length`, not to `⌈data.length / sectionSize⌉ = 2`, which would give 80. -/
theorem omac_acpkm_keymat_length_bug :
    omacKeymatLen 32 16 8 = 1280 ∧
    (KEYSIZE + 8) * ((32 + 16 - 1) / 16) = 80 ∧
    omacKeymatLen 32 16 8 ≠ (KEYSIZE + 8) * ((32 + 16 - 1) / 16) := by decide

/-- Claim C7 counterexample: `pad1` of a zero-length input is a full zero
block, not a zero-length output. -/
theorem pad1_empty_full_block :
    pad1 ([] : List ℕ) 8 = List.replicate 8 0 ∧ pad1 ([] : List ℕ) 8 ≠ [] := by decide

/-- Claim C7 (amended): `pad1` appends `getPadLength` zero bytes, the result
length is always a multiple of the block size, and a zero-length input becomes
one full block of zeros (length `blockSize`), not a zero-length output. -/
theorem pad1_zero_extends (bs : ℕ) (data : List ℕ) (h : 0 < bs) :
    pad1 data bs = data ++ List.replicate (getPadLength data.length bs) 0 ∧
    (pad1 data bs).length % bs = 0 ∧
    pad1 ([] : List ℕ) bs = List.replicate bs 0 := by
  refine ⟨rfl, ?_, ?_⟩
  · have hlen : (pad1 data bs).length = data.length + getPadLength data.length bs := by
      simp [pad1]
    rw [hlen]
    exact getPadLength_mod _ _ h
  · simp [pad1, getPadLength, h]

/-- Witness for `pad1_zero_extends` at `bs = 8`, `data = [1,2,3]`. -/
theorem pad1_zero_extends_witness :
    pad1 [1, 2, 3] 8 = [1, 2, 3] ++ List.replicate (getPadLength ([1, 2, 3] : List ℕ).length 8) 0 ∧
    (pad1 [1, 2, 3] 8).length % 8 = 0 ∧
    pad1 ([] : List ℕ) 8 = List.replicate 8 0 :=
  pad1_zero_extends 8 [1, 2, 3] (by decide)

/-- The MGM instance (fields of the src/mgm.ts `MGM` class). -/
structure MGM where
  encrypter : List ℕ → List ℕ
  blockSize : ℕ
  tag_size : ℕ

/-- src/mgm.ts constructor: `max_size = (1n << BigInt(blockSize * 4)) - 1n`. -/
def MGM.max_size (m : MGM) : ℕ := 2 ^ (m.blockSize * 4) - 1

/-- src/mgm.ts constructor: the GF reduction constant `r`. -/
def MGM.r (m : MGM) : ℕ := if m.blockSize = 8 then 27 else 135

/-- The checks of the src/mgm.ts constructor: block size 8 or 16 and tag size
in `[4, blockSize]` (other instances throw at construction). -/
def MGM.WellFormed (m : MGM) : Prop :=
  (m.blockSize = 8 ∨ m.blockSize = 16) ∧ 4 ≤ m.tag_size ∧ m.tag_size ≤ m.blockSize

/-- src/mgm.ts `validateSizes`. -/
def MGM.validateSizes (m : MGM) (plaintext additional : List ℕ) : Except String Unit :=
  if plaintext.length = 0 ∧ additional.length = 0 then
    Except.error "At least one of plaintext or additional_data required"
  else if plaintext.length + additional.length > m.max_size then
    Except.error "plaintext+additional_data are too big"
  else Except.ok ()

/-- The in-place writes `icn[0] &= 0x7F` / `icn[0] |= 0x80`: update byte 0 of
a buffer; a write to index 0 of an empty `Uint8Array` is a no-op. -/
def setFirst (l : List ℕ) (f : ℕ → ℕ) : List ℕ :=
  match l with
  | [] => []
  | b :: rest => f b :: rest

/-- src/mgm.ts `nonce_prepare`: copy the nonce and clear the top bit of its
first byte. -/
def MGM.nonce_prepare (nonce : List ℕ) : List ℕ := setFirst nonce (fun b => b &&& 127)

/-- The `while (y > 0n)` loop of src/mgm.ts `MGM.mul`: bit-serial GF(2^n)
multiplication. Fuel bounds the iterations; `y` halves each step, so the
initial `y` is always enough fuel. -/
def mulLoop (maxBit r : ℕ) : ℕ → ℕ → ℕ → ℕ → ℕ
  | 0, _, _, z => z
  | f+1, x, y, z =>
    if y = 0 then z
    else
      let z' := if y % 2 = 1 then z ^^^ x else z
      let x' := if x &&& maxBit ≠ 0 then ((x ^^^ maxBit) * 2) ^^^ r else x * 2
      mulLoop maxBit r f x' (y / 2) z'

/-- src/mgm.ts `MGM.mul`. -/
def MGM.mul (m : MGM) (a b : List ℕ) : Except String (List ℕ) :=
  let x := bytesToNumberBE a
  let y := bytesToNumberBE b
  let maxBit := 2 ^ (m.blockSize * 8 - 1)
  numberToBytesBE (mulLoop maxBit m.r y x y 0) m.blockSize

/-- The `while (data.length > 0)` loop of src/mgm.ts `MGM.crypt`: emit
`xor(E(enc), data)` (min-length XOR against the whole remaining buffer),
advance `enc` by `incr_r` (also after the final block), drop one block.
Fuel: the initial `data.length` bounds the block count when `blockSize > 0`
(`blockSize = 0` loops forever in the source and exhausts fuel here). -/
def cryptLoop (E : List ℕ → List ℕ) (bs : ℕ) :
    ℕ → List ℕ → List ℕ → Except String (List (List ℕ))
  | _, _, [] => Except.ok []
  | 0, _, _ => Except.error "nonterminating loop"
  | f+1, enc, data => do
    let enc' ← incr_r enc bs
    let rest ← cryptLoop E bs f enc' (data.drop bs)
    pure (xor (E enc) data :: rest)

/-- Pure part of src/mgm.ts `MGM.crypt` after the `icn[0] &= 0x7F` write:
seed `enc = E(icn)` and run the keystream loop. -/
def cryptBody (E : List ℕ → List ℕ) (bs : ℕ) (icn data : List ℕ) : Except String (List ℕ) :=
  (cryptLoop E bs data.length (E icn) data).map concatBytes

/-- src/mgm.ts `MGM.crypt`: clears the top bit of `icn` in place, then
produces keystream XOR data. Callers account for the in-place write. -/
def MGM.crypt (m : MGM) (icn data : List ℕ) : Except String (List ℕ) :=
  cryptBody m.encrypter m.blockSize (setFirst icn (fun b => b &&& 127)) data

/-- One stream-processing loop of src/mgm.ts `MGM.auth` (used for associated
data and then for text): `sum ← xor sum (mul (E enc) (pad1 chunk))`, advance
`enc` by `incr_l`, drop one block; returns the final `(enc, sum)`. -/
def authLoop (m : MGM) : ℕ → List ℕ → List ℕ → List ℕ → Except String (List ℕ × List ℕ)
  | _, enc, sum, [] => Except.ok (enc, sum)
  | 0, _, _, _ => Except.error "nonterminating loop"
  | f+1, enc, sum, data => do
    let p ← m.mul (m.encrypter enc) (pad1 (data.take m.blockSize) m.blockSize)
    let enc' ← incr_l enc m.blockSize
    authLoop m f enc' (xor sum p) (data.drop m.blockSize)

/-- Pure part of src/mgm.ts `MGM.auth` after the `icn[0] |= 0x80` write:
process associated data, then text, then the bit-length block, and truncate
the final encryption to `tag_size`. -/
def authBody (m : MGM) (icn text ad : List ℕ) : Except String (List ℕ) := do
  let enc := m.encrypter icn
  let sum := List.replicate m.blockSize 0
  let es1 ← authLoop m ad.length enc sum ad
  let es2 ← authLoop m text.length es1.1 es1.2 text
  let halfbs := m.blockSize / 2
  let lenA ← numberToBytesBE (ad.length * 8) halfbs
  let lenT ← numberToBytesBE (text.length * 8) halfbs
  let p ← m.mul (m.encrypter es2.1) (lenA ++ lenT)
  pure ((m.encrypter (xor es2.2 p)).take m.tag_size)

/-- src/mgm.ts `MGM.auth`: sets the top bit of `icn` in place, then computes
the tag. -/
def MGM.auth (m : MGM) (icn text ad : List ℕ) : Except String (List ℕ) :=
  authBody m (setFirst icn (fun b => b ||| 128)) text ad

/-- src/mgm.ts `MGM.seal`. `icn = nonce.slice()` is a fresh copy; `crypt`
applies `icn[0] &= 0x7F` to that copy in place, so the subsequent `auth` call
receives the masked copy (modelled by passing `setFirst nonce (· &&& 127)`). -/
def MGM.seal (m : MGM) (nonce plaintext additional : List ℕ) : Except String (List ℕ) :=
  match m.validateSizes plaintext additional with
  | Except.error e => Except.error e
  | Except.ok _ =>
    match m.crypt nonce plaintext with
    | Except.error e => Except.error e
    | Except.ok ciphertext =>
      match m.auth (setFirst nonce (fun b => b &&& 127)) ciphertext additional with
      | Except.error e => Except.error e
      | Except.ok tag => Except.ok (ciphertext ++ tag)

/-- Split position of src/mgm.ts `MGM.open`:
`ciphertext.subarray(0, len - tag_size)` clamps a negative end to
`max (2*len - tag_size) 0` (JavaScript negative-index semantics). -/
def MGM.splitPoint (m : MGM) (ciphertext : List ℕ) : ℕ :=
  if m.tag_size ≤ ciphertext.length then ciphertext.length - m.tag_size
  else 2 * ciphertext.length - m.tag_size

/-- src/mgm.ts `MGM.open` (`open` is a Lean keyword): split off the received
tag, recompute the tag over the ciphertext body, compare, and decrypt only on
equality. `auth` sets `icn[0] |= 0x80` on the fresh copy in place, so the
final `crypt` call receives that masked copy. -/
def MGM.open' (m : MGM) (nonce ciphertext additional : List ℕ) : Except String (List ℕ) :=
  match m.validateSizes ciphertext additional with
  | Except.error e => Except.error e
  | Except.ok _ =>
    let s := m.splitPoint ciphertext
    let ct := ciphertext.take s
    let tagExpected := ciphertext.drop s
    match m.auth nonce ct additional with
    | Except.error e => Except.error e
    | Except.ok tag =>
      if tagExpected = tag then
        m.crypt (setFirst nonce (fun b => b ||| 128)) ct
      else Except.error "Invalid authentication tag"

/-- A pure 8-byte block function chosen so that the encrypted nonce seed has an
all-`0xFF` right half: every block maps to zeros except the zero block. -/
def sealBugE : List ℕ → List ℕ := fun b =>
  if b = List.replicate 8 0 then [0, 0, 0, 0, 255, 255, 255, 255] else List.replicate 8 0

/-- Claim C1 (code evaluated at the failing input): with block size 8, tag
size 8, the pure block function `sealBugE`, the all-zero block nonce,
plaintext `[1]` and empty associated data — an admissible input — `seal`
throws: after the only plaintext block, `incr_r` increments the all-`0xFF`
right half of the keystream counter and `numberToBytesBE` throws on the
9-digit hex string instead of wrapping modulo `2^32`. Hence
`open(nonce, seal(nonce, p, ad), ad)` cannot return `p` on this input. -/
theorem mgm_seal_counter_overflow :
    MGM.seal ⟨sealBugE, 8, 8⟩ (List.replicate 8 0) [1] [] =
      Except.error "hex string expected, got unpadded hex" := rfl

/-- Claim C4: once the size checks pass and the tag recomputation succeeds
with value `t`, `open` returns the decryption of the ciphertext body exactly
when the received tag equals `t`, and otherwise fails with the
authentication-failure error, returning no plaintext (the decryption branch is
not taken). -/
theorem mgm_open_tag_gate (m : MGM) (nonce c ad t : List ℕ)
    (hv : m.validateSizes c ad = Except.ok ())
    (ha : m.auth nonce (c.take (m.splitPoint c)) ad = Except.ok t) :
    m.open' nonce c ad =
      if c.drop (m.splitPoint c) = t then
        m.crypt (setFirst nonce (fun b => b ||| 128)) (c.take (m.splitPoint c))
      else Except.error "Invalid authentication tag" := by
  simp only [MGM.open', hv, ha]

/-- The all-zeros 8-byte block function, used as a concrete pure cipher. -/
def constZeroE : List ℕ → List ℕ := fun _ => List.replicate 8 0

/-- Concrete MGM instance over `constZeroE` with block size 8 and tag size 8. -/
def mgmW : MGM := ⟨constZeroE, 8, 8⟩

/-- A 16-byte ciphertext whose received tag `[9,0,...,0]` differs from the tag
`mgmW` recomputes (all zeros). -/
def cW : List ℕ := [0, 0, 0, 0, 0, 0, 0, 1, 9, 0, 0, 0, 0, 0, 0, 0]

/-- Witness for `mgm_open_tag_gate`: at the concrete mismatching input the
hypotheses hold by computation and `open` takes the error branch. -/
theorem mgm_open_tag_gate_witness :
    mgmW.open' (List.replicate 8 0) cW [] =
      if cW.drop (mgmW.splitPoint cW) = List.replicate 8 0 then
        mgmW.crypt (setFirst (List.replicate 8 0) (fun b => b ||| 128))
          (cW.take (mgmW.splitPoint cW))
      else Except.error "Invalid authentication tag" :=
  mgm_open_tag_gate mgmW (List.replicate 8 0) cW [] (List.replicate 8 0) rfl rfl

/-- src/index.ts `acpkmDerivation`: encrypt the fixed schedule of blocks
`d = 0x80, 0x80 + bs, …` (the `d`-loop re-indexed by `j = (d - 0x80) / bs`,
`j < ⌊KEYSIZE / bs⌋`); byte `i` of block `j` is `0x80 + bs*j + i` stored into
a `Uint8Array`. -/
def acpkmDerivation (E : List ℕ → List ℕ) (bs : ℕ) : List ℕ :=
  concatBytes ((List.range (KEYSIZE / bs)).map (fun j =>
    E ((List.range bs).map (fun i => (128 + bs * j + i) % 256))))

/-- The keystream loop of src/index.ts `ctr`
(`for (ctr = 0; ctr < ceil(len/bs); ctr++)`), by recursion on the number of
remaining blocks. When ACPKM parameters are present (cipher constructor and
the section size in blocks, `(sectionSize / blockSize) | 0`), each index
`i ≠ 0` with `i % secBlocks = 0` derives a new key from the current block
function and rebuilds it; the rebuilt function produces this and all later
keystream blocks. -/
def ctrLoop (bs halfbs : ℕ) (iv : List ℕ)
    (acpkm : Option ((List ℕ → List ℕ → List ℕ) × ℕ)) :
    (List ℕ → List ℕ) → ℕ → ℕ → Except String (List (List ℕ))
  | _, _, 0 => Except.ok []
  | E, i, n+1 =>
    let E' := match acpkm with
      | some pair => if i ≠ 0 ∧ i % pair.2 = 0 then pair.1 (acpkmDerivation E bs) else E
      | none => E
    do
      let cb ← numberToBytesBE i halfbs
      let rest ← ctrLoop bs halfbs iv acpkm E' (i + 1) n
      pure (E' (iv ++ cb) :: rest)

/-- src/index.ts `ctr`: half-block IV, half-block big-endian block counter,
`max_size = 2^(8·halfbs) · bs`, optional ACPKM re-keying. -/
def ctr (E : List ℕ → List ℕ) (bs : ℕ) (data iv : List ℕ)
    (acpkm : Option ((List ℕ → List ℕ → List ℕ) × ℕ)) : Except String (List ℕ) :=
  let halfbs := bs / 2
  if iv.length ≠ halfbs then Except.error "Invalid IV size"
  else if data.length > 2 ^ (8 * halfbs) * bs then Except.error "Too big data"
  else
    (ctrLoop bs halfbs iv (acpkm.map (fun p => (p.1, p.2 / bs))) E 0
        ((data.length + bs - 1) / bs)).map
      (fun blocks => xor (concatBytes blocks) data)

/-- src/index.ts `ctr_acpkm`: plain `ctr` driven by ACPKM parameters. -/
def ctr_acpkm (cipherClass : List ℕ → List ℕ → List ℕ) (E : List ℕ → List ℕ)
    (sectionSize bs : ℕ) (data iv : List ℕ) : Except String (List ℕ) :=
  ctr E bs data iv (some (cipherClass, sectionSize))

/-- When no block index in the processed range triggers the re-keying
condition, the ACPKM-driven keystream loop coincides with the plain one. -/
theorem ctrLoop_no_rekey (bs halfbs : ℕ) (iv : List ℕ)
    (cipherClass : List ℕ → List ℕ → List ℕ) (secB : ℕ) (n : ℕ) :
    ∀ (i : ℕ) (E : List ℕ → List ℕ),
      (∀ j, i ≤ j → j < i + n → j = 0 ∨ j % secB ≠ 0) →
      ctrLoop bs halfbs iv (some (cipherClass, secB)) E i n =
        ctrLoop bs halfbs iv none E i n := by
  induction n with
  | zero => intro i E _; rfl
  | succ n ih =>
    intro i E h
    have hcond : ¬(i ≠ 0 ∧ i % secB = 0) := by
      rcases h i (le_refl i) (by omega) with h0 | h0 <;> simp [h0]
    simp only [ctrLoop]
    rw [if_neg hcond]
    rw [ih (i + 1) E (fun j hj1 hj2 => h j (by omega) (by omega))]

/-- Claim C8: for a section size that is a multiple of the block size and at
least the data length rounded up to a whole block, CTR-ACPKM never re-keys
and produces output byte-identical to plain CTR with the same block function,
block size, data and IV. -/
theorem ctr_acpkm_large_section_eq_ctr (cipherClass : List ℕ → List ℕ → List ℕ)
    (E : List ℕ → List ℕ) (bs N : ℕ) (data iv : List ℕ)
    (hbs : 0 < bs) (hiv : iv.length = bs / 2)
    (hmax : data.length ≤ 2 ^ (8 * (bs / 2)) * bs)
    (hdvd : N % bs = 0) (hbig : bs * ((data.length + bs - 1) / bs) ≤ N) :
    ctr_acpkm cipherClass E N bs data iv = ctr E bs data iv none := by
  have hloop : ctrLoop bs (bs / 2) iv (some (cipherClass, N / bs)) E 0
        ((data.length + bs - 1) / bs) =
      ctrLoop bs (bs / 2) iv none E 0 ((data.length + bs - 1) / bs) := by
    apply ctrLoop_no_rekey
    intro j hj0 hjlt
    by_cases hj : j = 0
    · exact Or.inl hj
    · right
      have hnb : (data.length + bs - 1) / bs ≤ N / bs := by
        rw [Nat.le_div_iff_mul_le hbs]
        calc (data.length + bs - 1) / bs * bs
            = bs * ((data.length + bs - 1) / bs) := Nat.mul_comm _ _
          _ ≤ N := hbig
      have hjlt' : j < N / bs := by omega
      rw [Nat.mod_eq_of_lt hjlt']
      exact hj
  unfold ctr_acpkm ctr
  simp only [Option.map_some', Option.map_none', hloop]

/-- A concrete ACPKM cipher constructor: every key yields the all-zeros
8-byte block function. -/
def ccW : List ℕ → List ℕ → List ℕ := fun _ _ => List.replicate 8 0

/-- Witness for `ctr_acpkm_large_section_eq_ctr` at block size 8, section
size 8, one byte of data. -/
theorem ctr_acpkm_large_section_eq_ctr_witness :
    ctr_acpkm ccW constZeroE 8 8 [5] [1, 2, 3, 4] = ctr constZeroE 8 [5] [1, 2, 3, 4] none :=
  ctr_acpkm_large_section_eq_ctr ccW constZeroE 8 8 [5] [1, 2, 3, 4]
    (by decide) (by decide) (by decide) (by decide) (by decide)

/-- A run of zero bytes contains no `0x80` marker. -/
theorem lastIdx80_replicate_zero (p : ℕ) : lastIdx80 (List.replicate p 0) = none := by
  induction p with
  | zero => rfl
  | succ p ih => simp [List.replicate, lastIdx80, ih]

/-- The rightmost `0x80` of `l ++ 0x80 :: zeros` is the explicit marker. -/
theorem lastIdx80_append_marker (l : List ℕ) (p : ℕ) :
    lastIdx80 (l ++ 128 :: List.replicate p 0) = some l.length := by
  induction l with
  | nil => simp [lastIdx80, lastIdx80_replicate_zero p]
  | cons b rest ih => simp [lastIdx80, ih]

/-- `unpad2` recovers the prefix of a well-formed pad2-style buffer: a body
`y`, the `0x80` marker, and fewer than a block of zeros, with the marker
inside the final block. -/
theorem unpad2_marker (y : List ℕ) (p bs : ℕ) (hp : p < bs)
    (hbs : bs ≤ y.length + 1 + p) :
    unpad2 (y ++ 128 :: List.replicate p 0) bs = Except.ok y := by
  have hlen : (y ++ 128 :: List.replicate p 0).length = y.length + 1 + p := by
    simp [List.length_append, List.length_replicate]
    omega
  have hc : bs ≤ (y ++ 128 :: List.replicate p 0).length := by rw [hlen]; exact hbs
  have hsle : y.length + 1 + p - bs ≤ y.length := by omega
  have hdrop : (y ++ 128 :: List.replicate p 0).drop (y.length + 1 + p - bs) =
      y.drop (y.length + 1 + p - bs) ++ 128 :: List.replicate p 0 :=
    List.drop_append_of_le_length hsle
  have hxlen : (y.drop (y.length + 1 + p - bs)).length = bs - 1 - p := by
    rw [List.length_drop]; omega
  have hidx : lastIdx80 (y.drop (y.length + 1 + p - bs) ++ 128 :: List.replicate p 0) =
      some (bs - 1 - p) := by
    rw [lastIdx80_append_marker, hxlen]
  have hdrop2 : (y.drop (y.length + 1 + p - bs) ++ 128 :: List.replicate p 0).drop
      (bs - 1 - p + 1) = List.replicate p 0 := by
    rw [← hxlen, List.drop_append]
    rfl
  have hall : (List.replicate p 0).all (fun x => x == 0) = true := by simp
  have htk : bs - (bs - 1 - p) = p + 1 := by omega
  have htkle : p + 1 ≤ y.length + 1 + p := by omega
  have hif : (if bs ≤ y.length + 1 + p then y.length + 1 + p - bs
      else 2 * (y.length + 1 + p) - bs) = y.length + 1 + p - bs := if_pos hbs
  have hif2 : (if p + 1 ≤ y.length + 1 + p then y.length + 1 + p - (p + 1)
      else 2 * (y.length + 1 + p) - (p + 1)) = y.length + 1 + p - (p + 1) := if_pos htkle
  have htake : (y ++ 128 :: List.replicate p 0).take (y.length + 1 + p - (p + 1)) = y := by
    have he : y.length + 1 + p - (p + 1) = y.length := by omega
    rw [he, List.take_left]
  simp only [unpad2, hlen, hif, hdrop, hidx, hdrop2, hall, eq_self_iff_true, if_true,
    htk, hif2, htake]

/-- Claim C9: padding round-trip — for every byte sequence `x` and block size
8 or 16, `unpad2 (pad2 x bs) bs` succeeds and returns `x`. -/
theorem unpad2_pad2_roundtrip (x : List ℕ) (bs : ℕ) (hbs : bs = 8 ∨ bs = 16) :
    unpad2 (pad2 x bs) bs = Except.ok x := by
  have h : 0 < bs := by rcases hbs with h | h <;> omega
  have hp : getPadLength (x.length + 1) bs < bs :=
    getPadLength_lt (x.length + 1) bs (by omega) h
  have hmod : (x.length + 1 + getPadLength (x.length + 1) bs) % bs = 0 :=
    getPadLength_mod (x.length + 1) bs h
  have hL : bs ≤ x.length + 1 + getPadLength (x.length + 1) bs :=
    Nat.le_of_dvd (by omega) (Nat.dvd_of_mod_eq_zero hmod)
  have hm := unpad2_marker x (getPadLength (x.length + 1) bs) bs hp hL
  simpa [pad2] using hm

/-- Witness for `unpad2_pad2_roundtrip` on the spec example
`pad2([0x11, 0x22], 8)`. -/
theorem unpad2_pad2_roundtrip_witness :
    unpad2 (pad2 [17, 34] 8) 8 = Except.ok [17, 34] :=
  unpad2_pad2_roundtrip [17, 34] 8 (Or.inl rfl)

/-- A tiny store of `Uint8Array` objects: buffer ids mapped to byte contents,
with a fresh-id counter. It makes the in-place mutations of src/mgm.ts
observable: `nonce.slice()` allocates a copy, `icn[0] &= 0x7F` and
`icn[0] |= 0x80` write to the buffer `icn` refers to. -/
structure Heap where
  mem : ℕ → List ℕ
  next : ℕ

/-- Overwrite the buffer with id `b`. -/
def Heap.write (h : Heap) (b : ℕ) (v : List ℕ) : Heap :=
  ⟨fun i => if i = b then v else h.mem i, h.next⟩

/-- Allocate a fresh buffer holding `v` (the copy `.slice()` makes);
returns the new store and the fresh id. -/
def Heap.alloc (h : Heap) (v : List ℕ) : Heap × ℕ :=
  (⟨fun i => if i = h.next then v else h.mem i, h.next + 1⟩, h.next)

/-- src/mgm.ts `MGM.crypt` against the store: the single in-place write
`icn[0] &= 0x7F` to the buffer `icn` refers to, then the pure keystream
computation reading the written buffer. -/
def cryptRef (m : MGM) (h : Heap) (icn : ℕ) (data : List ℕ) :
    Heap × Except String (List ℕ) :=
  let h1 := h.write icn (setFirst (h.mem icn) (fun b => b &&& 127))
  (h1, cryptBody m.encrypter m.blockSize (h1.mem icn) data)

/-- src/mgm.ts `MGM.auth` against the store: the single in-place write
`icn[0] |= 0x80`, then the pure tag computation. -/
def authRef (m : MGM) (h : Heap) (icn : ℕ) (text ad : List ℕ) :
    Heap × Except String (List ℕ) :=
  let h1 := h.write icn (setFirst (h.mem icn) (fun b => b ||| 128))
  (h1, authBody m (h1.mem icn) text ad)

/-- src/mgm.ts `MGM.seal` against the store: `icn = nonce.slice()` allocates a
copy of the caller's nonce; `crypt` and `auth` mutate only that copy. -/
def sealRef (m : MGM) (h : Heap) (nonce : ℕ) (plaintext additional : List ℕ) :
    Heap × Except String (List ℕ) :=
  match m.validateSizes plaintext additional with
  | Except.error e => (h, Except.error e)
  | Except.ok _ =>
    let a := h.alloc (h.mem nonce)
    let c := cryptRef m a.1 a.2 plaintext
    match c.2 with
    | Except.error e => (c.1, Except.error e)
    | Except.ok ciphertext =>
      let t := authRef m c.1 a.2 ciphertext additional
      match t.2 with
      | Except.error e => (t.1, Except.error e)
      | Except.ok tag => (t.1, Except.ok (ciphertext ++ tag))

/-- src/mgm.ts `MGM.open` against the store: the fresh copy of the nonce is
mutated by `auth`, and by `crypt` only after the tags matched. -/
def openRef (m : MGM) (h : Heap) (nonce : ℕ) (ciphertext additional : List ℕ) :
    Heap × Except String (List ℕ) :=
  match m.validateSizes ciphertext additional with
  | Except.error e => (h, Except.error e)
  | Except.ok _ =>
    let a := h.alloc (h.mem nonce)
    let s := m.splitPoint ciphertext
    let t := authRef m a.1 a.2 (ciphertext.take s) additional
    match t.2 with
    | Except.error e => (t.1, Except.error e)
    | Except.ok tag =>
      if ciphertext.drop s = tag then
        let c := cryptRef m t.1 a.2 (ciphertext.take s)
        (c.1, c.2)
      else (t.1, Except.error "Invalid authentication tag")

/-- src/mgm.ts `MGM.nonce_prepare` against the store: `n = nonce.slice()`
allocates a copy, `n[0] &= 0x7F` writes that copy, and the copy's id is
returned. -/
def nonce_prepareRef (h : Heap) (nonce : ℕ) : Heap × ℕ :=
  let a := h.alloc (h.mem nonce)
  let h2 := a.1.write a.2 (setFirst (a.1.mem a.2) (fun b => b &&& 127))
  (h2, a.2)

/-- Claim C10: `seal` and `open` never modify the caller's nonce buffer — on
every control path (success, tag mismatch, or a thrown error) all in-place
top-bit writes land on the freshly allocated copy, whose id is distinct from
every valid pre-existing id; `nonce_prepare` likewise leaves its argument
unchanged and returns a fresh buffer holding the nonce with the top bit of
byte 0 cleared. -/
theorem mgm_nonce_buffer_preserved (m : MGM) (h : Heap) (nonce : ℕ)
    (p ad c : List ℕ) (hvalid : nonce < h.next) :
    (sealRef m h nonce p ad).1.mem nonce = h.mem nonce ∧
    (openRef m h nonce c ad).1.mem nonce = h.mem nonce ∧
    (nonce_prepareRef h nonce).1.mem nonce = h.mem nonce ∧
    (nonce_prepareRef h nonce).1.mem (nonce_prepareRef h nonce).2 =
      setFirst (h.mem nonce) (fun b => b &&& 127) := by
  have hne : nonce ≠ h.next := by omega
  refine ⟨?_, ?_, ?_, ?_⟩
  · simp only [sealRef]
    split
    · rfl
    · split
      · simp [cryptRef, Heap.write, Heap.alloc, hne]
      · split
        · simp [authRef, cryptRef, Heap.write, Heap.alloc, hne]
        · simp [authRef, cryptRef, Heap.write, Heap.alloc, hne]
  · simp only [openRef]
    split
    · rfl
    · split
      · simp [authRef, Heap.write, Heap.alloc, hne]
      · split
        · simp [cryptRef, authRef, Heap.write, Heap.alloc, hne]
        · simp [authRef, Heap.write, Heap.alloc, hne]
  · simp [nonce_prepareRef, Heap.write, Heap.alloc, hne]
  · simp [nonce_prepareRef, Heap.write, Heap.alloc]

/-- A one-buffer store: id 0 holds an 8-byte nonce. -/
def heapW : Heap := ⟨fun i => if i = 0 then [1, 2, 3, 4, 5, 6, 7, 8] else [], 1⟩

/-- Witness for `mgm_nonce_buffer_preserved` on the concrete store `heapW`. -/
theorem mgm_nonce_buffer_preserved_witness :
    (sealRef mgmW heapW 0 [1] []).1.mem 0 = heapW.mem 0 ∧
    (openRef mgmW heapW 0 cW []).1.mem 0 = heapW.mem 0 ∧
    (nonce_prepareRef heapW 0).1.mem 0 = heapW.mem 0 ∧
    (nonce_prepareRef heapW 0).1.mem (nonce_prepareRef heapW 0).2 =
      setFirst (heapW.mem 0) (fun b => b &&& 127) :=
  mgm_nonce_buffer_preserved mgmW heapW 0 [1] [] cW (by decide)
